import Mathlib

/-!
Verification of the resolution-comms protocol core
(`src/resolution_protocol/src/types/{crypto,encodings,error}.rs`).

Shallow embedding conventions:
* Rust byte vectors (`Vec<u8>`) become `List Nat`; where a claim depends on
  bytes being 8-bit values, the bound `x < 256` is an explicit hypothesis.
* The external cryptographic libraries (`oqs` ML-KEM-768 / Falcon-512,
  `aes_gcm` AES-256-GCM) and the `rmp_serde` msgpack serializer are opaque to
  this repository: we embed them as a parameter structure `Prims`, and the
  theorems assume exactly the correctness laws those libraries document
  (decapsulation inverts encapsulation, AEAD decrypt inverts encrypt,
  verify accepts a signature made with the matching secret key, decoding
  inverts encoding).  Randomness (`OsRng` nonces, encapsulation coins) is
  passed as explicit arguments.
* Fallible Rust `Result` code returns `Except Err`; `Err` mirrors the
  `Error` enum of `src/types/error.rs` (variants wrapping foreign error
  payloads are collapsed to bare constructors).
* `Aes256Gcm::new_from_slice` fails with `InvalidLength` exactly when the key
  slice is not 32 bytes; that check is embedded explicitly at each call site.
* The URL-safe unpadded base64 codec of `src/types/encodings.rs` is embedded
  concretely (it is the subject of round-trip claims), operating on character
  codes (`List Nat`) in place of Rust `String`.
-/

/-- Byte strings (`Vec<u8>`); entries are byte values. -/
abbrev Bytes := List Nat

/-- The `Error` enum of `src/types/error.rs`.  Variants that wrap foreign
error payloads (`aes_gcm::Error`, `oqs::Error`, decode errors, ...) are
collapsed to bare constructors; `BadLength(usize, usize)` keeps its two
positional fields; `UserError::InvalidKeyId { expected, received }` keeps its
two `Uuid` fields (UUIDs are embedded as `Nat`). -/
inductive Err where
  | AES
  | AESInvalidKeyLength
  | Base64Decoding
  | MsgpackDecoding
  | MsgpackEncoding
  | OQS
  | BadLength : Nat → Nat → Err
  | UserErrorInvalidKeyId (expected received : Nat)
  | UninitializedField
  deriving DecidableEq, Repr

/-- The `#[error("Invalid bytestring length: expected {0}, got {1}")]`
format attribute on `Error::BadLength` (`src/types/error.rs:60`): the first
positional field is rendered into the `expected` slot and the second into the
`got` slot. -/
def badLengthMessage (a b : Nat) : String :=
  "Invalid bytestring length: expected " ++ toString a ++ ", got " ++ toString b

/-- The external primitives used by `types/crypto.rs`, embedded as opaque
functions: the `oqs` KEM (ML-KEM-768) and signature (Falcon-512) instances,
AES-256-GCM, and the `rmp_serde` encoders/decoders for the three record
shapes the protocol serializes.  Randomized operations take their coins as
explicit arguments.  Serialization of well-formed in-memory values is
embedded as total (the spec notes encoding failure "should not occur for
well-formed in-memory data"); decoding of untrusted bytes is partial. -/
structure Prims where
  /-- `kem.keypair()`: coins to an optional (public key, secret key) pair. -/
  kemKeypair : Nat → Option (Bytes × Bytes)
  /-- `sig.keypair()`. -/
  sigKeypair : Nat → Option (Bytes × Bytes)
  /-- `kem.encapsulate(pk)`: public key and coins to optional
  (ciphertext, shared secret). -/
  kemEncapsulate : Bytes → Nat → Option (Bytes × Bytes)
  /-- `kem.decapsulate(sk, ct)`. -/
  kemDecapsulate : Bytes → Bytes → Option Bytes
  /-- `sig.sign(message, sk)`. -/
  sigSign : Bytes → Bytes → Bytes
  /-- `sig.verify(message, signature, pk)` as a boolean acceptance test. -/
  sigVerify : Bytes → Bytes → Bytes → Bool
  /-- `Aes256Gcm::encrypt(nonce, plaintext)` for a cipher keyed by the first
  argument: key, nonce, plaintext to optional ciphertext-with-tag. -/
  aesEncrypt : Bytes → Bytes → Bytes → Option Bytes
  /-- `Aes256Gcm::decrypt(nonce, ciphertext)`: key, nonce, ciphertext to
  optional plaintext (`none` on tag failure). -/
  aesDecrypt : Bytes → Bytes → Bytes → Option Bytes
  /-- `Msgpack::encode` for the single-recipient record
  `(Ciphertext, Vec<u8>, Vec<u8>)` of `crypto.rs:71`. -/
  encTriple : Bytes × Bytes × Bytes → Bytes
  /-- `Msgpack::decode` for the single-recipient record. -/
  decTriple : Bytes → Option (Bytes × Bytes × Bytes)
  /-- `Msgpack::encode` for the group inner record `(Uuid, Vec<u8>, Vec<u8>)`
  of `crypto.rs:80`. -/
  encGroupTriple : Nat × Bytes × Bytes → Bytes
  /-- `Msgpack::decode` for the group inner record. -/
  decGroupTriple : Bytes → Option (Nat × Bytes × Bytes)
  /-- `Msgpack::encode` for the `(Msgpack, Signature)` pair (the wrapped
  `GroupEncryption` package of `crypto.rs:177`). -/
  encPair : Bytes × Bytes → Bytes
  /-- `Msgpack::decode` (and `from_binary` validation) for that pair. -/
  decPair : Bytes → Option (Bytes × Bytes)

/-- `SharedSecret` (`crypto.rs:14`): a newtype over a byte vector. -/
structure SharedSecret where
  bytes : Bytes
  deriving DecidableEq, Repr

/-- `impl TryFrom<Vec<u8>> for SharedSecret` (`crypto.rs:28-37`): reject with
`Error::BadLength(value.len(), 32)` unless the input is exactly 32 bytes. -/
def SharedSecret.try_from (value : Bytes) : Except Err SharedSecret :=
  if value.length ≠ 32 then
    Except.error (Err.BadLength value.length 32)
  else
    Except.ok ⟨value⟩

/-- `GroupKey(Uuid, SharedSecret)` (`crypto.rs:90`); `id()` and `key()` are
the field projections. -/
structure GroupKey where
  id : Nat
  key : SharedSecret
  deriving DecidableEq, Repr

/-- `EncryptionContext` (`crypto.rs:107`): one KEM keypair and one signature
keypair, each as (public key, secret key).  The shared `kem`/`sig` algorithm
instances are the ambient `Prims` parameter. -/
structure EncryptionContext where
  encryption : Bytes × Bytes
  signing : Bytes × Bytes
  deriving DecidableEq, Repr

namespace EncryptionContext

/-- `EncryptionContext::generate` (`crypto.rs:119-131`): draw a KEM keypair
and a signature keypair, propagating either library failure. -/
def generate (P : Prims) (rk rs : Nat) : Except Err EncryptionContext :=
  match P.kemKeypair rk with
  | none => Except.error Err.OQS
  | some (epk, esk) =>
    match P.sigKeypair rs with
    | none => Except.error Err.OQS
    | some (spk, ssk) => Except.ok ⟨(epk, esk), (spk, ssk)⟩

/-- `public_keys` (`crypto.rs:141`): the (encapsulation, signing) public
keys, always exported together. -/
def public_keys (c : EncryptionContext) : Bytes × Bytes :=
  (c.encryption.1, c.signing.1)

/-- `secret_keys` (`crypto.rs:145`). -/
def secret_keys (c : EncryptionContext) : Bytes × Bytes :=
  (c.encryption.2, c.signing.2)

/-- `encrypt_direct` (`crypto.rs:149-158`).  `nonce` is the fresh
`Aes256Gcm::generate_nonce` output and `r` the encapsulation coins.  The
returned pair is the `SingleEncryption` `(Msgpack record, signature)`: the
record serializes `(kem ciphertext, nonce, encrypted block)` and the
signature is over the record bytes with the sender's signing secret key. -/
def encrypt_direct (P : Prims) (c : EncryptionContext) (nonce : Bytes)
    (r : Nat) (target : Bytes) (data : Bytes) : Except Err (Bytes × Bytes) :=
  match P.kemEncapsulate target r with
  | none => Except.error Err.OQS
  | some (opaque_key, ss) =>
    if ss.length ≠ 32 then Except.error Err.AESInvalidKeyLength
    else
      match P.aesEncrypt ss nonce data with
      | none => Except.error Err.AES
      | some encrypted_block =>
        let record := P.encTriple (opaque_key, nonce, encrypted_block)
        let signature := P.sigSign record c.secret_keys.2
        Except.ok (record, signature)

/-- `decrypt_direct` (`crypto.rs:160-169`): verify the signature over the
record bytes against the (mandatory) `signer` argument, decode the record,
decapsulate with the context's own KEM secret key, and AEAD-decrypt. -/
def decrypt_direct (P : Prims) (c : EncryptionContext) (data : Bytes × Bytes)
    (signer : Bytes) : Except Err Bytes :=
  if P.sigVerify data.1 data.2 signer then
    match P.decTriple data.1 with
    | none => Except.error Err.MsgpackDecoding
    | some (ciphertext, nonce, encrypted_block) =>
      match P.kemDecapsulate c.secret_keys.1 ciphertext with
      | none => Except.error Err.OQS
      | some shared_secret =>
        if shared_secret.length ≠ 32 then Except.error Err.AESInvalidKeyLength
        else
          match P.aesDecrypt shared_secret nonce encrypted_block with
          | none => Except.error Err.AES
          | some decrypted_block => Except.ok decrypted_block
  else Except.error Err.OQS

/-- The loop body of `encrypt_group` (`crypto.rs:179-183`): push
`(target, encrypt_direct(target, wrapped_data))` for each target, aborting on
the first failure (the `?` operator).  `rnd i` supplies the fresh nonce and
encapsulation coins of the i-th `encrypt_direct` call. -/
def encrypt_targets (P : Prims) (c : EncryptionContext)
    (rnd : Nat → Bytes × Nat) (wrapped_data : Bytes) :
    List Bytes → Nat → Except Err (List (Bytes × (Bytes × Bytes)))
  | [], _ => Except.ok []
  | t :: ts, i =>
    match encrypt_direct P c (rnd i).1 (rnd i).2 t wrapped_data with
    | Except.error e => Except.error e
    | Except.ok enc =>
      match encrypt_targets P c rnd wrapped_data ts (i + 1) with
      | Except.error e => Except.error e
      | Except.ok rest => Except.ok ((t, enc) :: rest)

/-- `encrypt_group` (`crypto.rs:171-186`): encrypt the payload once under the
group key, serialize the inner record `(key id, nonce, encrypted block)`,
sign it once, wrap `(record, signature)` once, then hybrid-encrypt that one
wrapped package to every target. -/
def encrypt_group (P : Prims) (c : EncryptionContext) (key : GroupKey)
    (targets : List Bytes) (data : Bytes) (nonce : Bytes)
    (rnd : Nat → Bytes × Nat) : Except Err (List (Bytes × (Bytes × Bytes))) :=
  if key.key.bytes.length ≠ 32 then Except.error Err.AESInvalidKeyLength
  else
    match P.aesEncrypt key.key.bytes nonce data with
    | none => Except.error Err.AES
    | some encrypted_block =>
      let record := P.encGroupTriple (key.id, nonce, encrypted_block)
      let signature := P.sigSign record c.secret_keys.2
      let wrapped_data := P.encPair (record, signature)
      encrypt_targets P c rnd wrapped_data targets 0

/-- `decrypt_group` (`crypto.rs:188-200`): hybrid-decrypt the outer layer,
decode the wrapped `(inner record, inner signature)` pair, verify the inner
signature against `signer`, decode the inner record, reject with
`UserError::invalid_key_id(key.id(), key_id)` when the carried group-key id
differs from the supplied key's id, and only then AEAD-decrypt with the
supplied group key's secret. -/
def decrypt_group (P : Prims) (c : EncryptionContext) (key : GroupKey)
    (data : Bytes × Bytes) (signer : Bytes) : Except Err Bytes :=
  match decrypt_direct P c data signer with
  | Except.error e => Except.error e
  | Except.ok wrapped =>
    match P.decPair wrapped with
    | none => Except.error Err.MsgpackDecoding
    | some (group_data, signature) =>
      if P.sigVerify group_data signature signer then
        match P.decGroupTriple group_data with
        | none => Except.error Err.MsgpackDecoding
        | some (key_id, nonce, encrypted_block) =>
          if key_id ≠ key.id then
            Except.error (Err.UserErrorInvalidKeyId key.id key_id)
          else if key.key.bytes.length ≠ 32 then
            Except.error Err.AESInvalidKeyLength
          else
            match P.aesDecrypt key.key.bytes nonce encrypted_block with
            | none => Except.error Err.AES
            | some decrypted_block => Except.ok decrypted_block
      else Except.error Err.OQS

end EncryptionContext

/-! ## URL-safe unpadded base64 (`src/types/encodings.rs`)

`BASE64_URL_SAFE_NO_PAD` of the `base64` crate, embedded concretely.  Strings
are embedded as their lists of character codes.  The decoder mirrors the
crate's checks: unknown characters, a length congruent to 1 mod 4, and
non-zero trailing bits in a final partial chunk are all rejected. -/

/-- The URL-safe alphabet: sextet to character code
(`A-Z`, `a-z`, `0-9`, `-`, `_`). -/
def sextetToCode (n : Nat) : Nat :=
  if n < 26 then 65 + n
  else if n < 52 then 97 + (n - 26)
  else if n < 62 then 48 + (n - 52)
  else if n = 62 then 45
  else 95

/-- Character code back to sextet; `none` for characters outside the
URL-safe alphabet. -/
def codeToSextet (c : Nat) : Option Nat :=
  if 65 ≤ c ∧ c ≤ 90 then some (c - 65)
  else if 97 ≤ c ∧ c ≤ 122 then some (26 + (c - 97))
  else if 48 ≤ c ∧ c ≤ 57 then some (52 + (c - 48))
  else if c = 45 then some 62
  else if c = 95 then some 63
  else none

/-- Split bytes into 6-bit groups, unpadded: 3 bytes become 4 sextets, a
final single byte 2 sextets, a final byte pair 3 sextets. -/
def bytesToSextets : Bytes → List Nat
  | [] => []
  | [a] => [a / 4, a % 4 * 16]
  | [a, b] => [a / 4, a % 4 * 16 + b / 16, b % 16 * 4]
  | a :: b :: c :: rest =>
    a / 4 :: (a % 4 * 16 + b / 16) :: (b % 16 * 4 + c / 64) :: c % 64 ::
      bytesToSextets rest

/-- Reassemble bytes from 6-bit groups; rejects a length of 1 mod 4 and
non-zero trailing bits in a final partial chunk, as the crate does. -/
def sextetsToBytes : List Nat → Option Bytes
  | [] => some []
  | [_] => none
  | [s, t] => if t % 16 = 0 then some [s * 4 + t / 16] else none
  | [s, t, u] =>
    if u % 4 = 0 then some [s * 4 + t / 16, t % 16 * 16 + u / 4] else none
  | s :: t :: u :: v :: rest =>
    match sextetsToBytes rest with
    | none => none
    | some bs =>
      some ((s * 4 + t / 16) :: (t % 16 * 16 + u / 4) :: (u % 4 * 64 + v) :: bs)

/-- Map every character code back to a sextet, failing on the first
character outside the alphabet. -/
def decodeCodes : List Nat → Option (List Nat)
  | [] => some []
  | c :: rest =>
    match codeToSextet c with
    | none => none
    | some s => (decodeCodes rest).map (fun l => s :: l)

/-- `Base64(String)` (`encodings.rs:12`): a newtype over a string, embedded
as the string's character codes.  Any string can be stored; validity is only
checked on decoding. -/
structure Base64 where
  s : List Nat
  deriving DecidableEq, Repr

namespace Base64

/-- `impl<T: IntoIterator<Item = u8>> From<T> for Base64` (`encodings.rs:14-18`):
total URL-safe unpadded base64 encoding; cannot fail. -/
def fromBytes (bytes : Bytes) : Base64 :=
  ⟨(bytesToSextets bytes).map sextetToCode⟩

/-- `impl FromStr for Base64` (`encodings.rs:32-37`): the error type is
`Infallible` (embedded as `Empty`), and the string is stored unchecked. -/
def from_str (s : List Nat) : Except Empty Base64 :=
  Except.ok ⟨s⟩

/-- `impl TryInto<Vec<u8>> for Base64` (`encodings.rs:39-46`): decode,
mapping any `base64::DecodeError` to `Error::Base64Decoding`. -/
def tryInto (b : Base64) : Except Err Bytes :=
  match decodeCodes b.s with
  | none => Except.error Err.Base64Decoding
  | some sextets =>
    match sextetsToBytes sextets with
    | none => Except.error Err.Base64Decoding
    | some bytes => Except.ok bytes

/-- `Base64::try_value` (`encodings.rs:59-61`). -/
def try_value (b : Base64) : Except Err Bytes :=
  b.tryInto

/-- `Base64::value` (`encodings.rs:53-57`): `try_into().expect(...)` — the
`expect` panic on a non-decodable string is embedded as `none`. -/
def value (b : Base64) : Option Bytes :=
  b.tryInto.toOption

end Base64

/-! ## `SymmetricKey` (spec-modelled)

`lib.rs:5` re-exports `types::crypto::SymmetricKey`, but no definition of
`SymmetricKey` appears anywhere under `src/`. -/

/-- Modelled from the spec: `SymmetricKey` is declared in the public API
(`pub use types::crypto::{Base64, SymmetricKey}` in `src/lib.rs:5`) but its
definition is missing from `src/`; embedded from spec section 4.3 — an
AES-256-GCM key of 32 bytes. -/
structure SymmetricKey where
  key : Bytes
  deriving DecidableEq, Repr

namespace SymmetricKey

/-- Modelled from the spec: `generate()` draws 32 bytes from a secure RNG;
the RNG is an explicit byte stream. -/
def generate (rndByte : Nat → Nat) : SymmetricKey :=
  ⟨(List.range 32).map rndByte⟩

/-- Modelled from the spec: `encrypt(key, plaintext)` draws a fresh nonce,
runs AES-256-GCM, and returns an envelope wrapping
(nonce, ciphertext-with-tag). -/
def encrypt (P : Prims) (k : SymmetricKey) (nonce : Bytes) (plaintext : Bytes) :
    Except Err Bytes :=
  if k.key.length ≠ 32 then Except.error Err.AESInvalidKeyLength
  else
    match P.aesEncrypt k.key nonce plaintext with
    | none => Except.error Err.AES
    | some ciphertext => Except.ok (P.encPair (nonce, ciphertext))

/-- Modelled from the spec: `decrypt(key, envelope)` decodes the envelope to
(nonce, ciphertext-with-tag) and AEAD-decrypts, failing on tag mismatch. -/
def decrypt (P : Prims) (k : SymmetricKey) (envelope : Bytes) :
    Except Err Bytes :=
  match P.decPair envelope with
  | none => Except.error Err.MsgpackDecoding
  | some (nonce, ciphertext) =>
    if k.key.length ≠ 32 then Except.error Err.AESInvalidKeyLength
    else
      match P.aesDecrypt k.key nonce ciphertext with
      | none => Except.error Err.AES
      | some plaintext => Except.ok plaintext

end SymmetricKey

/-! ## A concrete instantiation of the primitives

A small executable instantiation of `Prims` in which every correctness law
of the external libraries holds, used to exhibit satisfiability of the
theorems' hypotheses and to evaluate the protocol on concrete inputs.  The
serializers length-prefix each field; the toy KEM, AEAD and signature are
trivially invertible stand-ins. -/

/-- Length-prefix a byte string. -/
def encB (l : Bytes) : Bytes := l.length :: l

/-- Read one length-prefixed byte string, returning it and the remainder. -/
def decB : Bytes → Option (Bytes × Bytes)
  | [] => none
  | n :: rest =>
    if n ≤ rest.length then some (rest.take n, rest.drop n) else none

theorem decB_encB (l rest : Bytes) : decB (encB l ++ rest) = some (l, rest) := by
  simp [encB, decB, List.take_left, List.drop_left]

theorem decB_encB_nil (l : Bytes) : decB (encB l) = some (l, []) := by
  simpa using decB_encB l []

/-- Toy serializer for the single-recipient record. -/
def toyEncTriple : Bytes × Bytes × Bytes → Bytes
  | (a, b, c) => encB a ++ encB b ++ encB c

/-- Toy deserializer for the single-recipient record. -/
def toyDecTriple (l : Bytes) : Option (Bytes × Bytes × Bytes) :=
  match decB l with
  | none => none
  | some (a, r1) =>
    match decB r1 with
    | none => none
    | some (b, r2) =>
      match decB r2 with
      | none => none
      | some (c, r3) => if r3 = [] then some (a, b, c) else none

/-- Toy serializer for the group inner record. -/
def toyEncGroupTriple : Nat × Bytes × Bytes → Bytes
  | (i, b, c) => i :: (encB b ++ encB c)

/-- Toy deserializer for the group inner record. -/
def toyDecGroupTriple : Bytes → Option (Nat × Bytes × Bytes)
  | [] => none
  | i :: rest =>
    match decB rest with
    | none => none
    | some (b, r1) =>
      match decB r1 with
      | none => none
      | some (c, r2) => if r2 = [] then some (i, b, c) else none

/-- Toy serializer for the wrapped (record, signature) pair. -/
def toyEncPair : Bytes × Bytes → Bytes
  | (a, b) => encB a ++ encB b

/-- Toy deserializer for the wrapped pair. -/
def toyDecPair (l : Bytes) : Option (Bytes × Bytes) :=
  match decB l with
  | none => none
  | some (a, r1) =>
    match decB r1 with
    | none => none
    | some (b, r2) => if r2 = [] then some (a, b) else none

theorem toyDecTriple_enc (t : Bytes × Bytes × Bytes) :
    toyDecTriple (toyEncTriple t) = some t := by
  obtain ⟨a, b, c⟩ := t
  simp [toyEncTriple, toyDecTriple, List.append_assoc, decB_encB, decB_encB_nil]

theorem toyDecGroupTriple_enc (t : Nat × Bytes × Bytes) :
    toyDecGroupTriple (toyEncGroupTriple t) = some t := by
  obtain ⟨i, b, c⟩ := t
  simp [toyEncGroupTriple, toyDecGroupTriple, decB_encB, decB_encB_nil]

theorem toyDecPair_enc (t : Bytes × Bytes) :
    toyDecPair (toyEncPair t) = some t := by
  obtain ⟨a, b⟩ := t
  simp [toyEncPair, toyDecPair, decB_encB, decB_encB_nil]

/-- The concrete primitives bundle. -/
def toyPrims : Prims where
  kemKeypair r := some ([r], [r])
  sigKeypair r := some ([r], [r])
  kemEncapsulate pk r := some (pk ++ [r], List.replicate 32 r)
  kemDecapsulate _ ct := some (List.replicate 32 (ct.getLast?.getD 0))
  sigSign m sk := sk ++ m
  sigVerify m s pk := decide (s = pk ++ m)
  aesEncrypt _ _ p := some p.reverse
  aesDecrypt _ _ c := some c.reverse
  encTriple := toyEncTriple
  decTriple := toyDecTriple
  encGroupTriple := toyEncGroupTriple
  decGroupTriple := toyDecGroupTriple
  encPair := toyEncPair
  decPair := toyDecPair

theorem toy_sig_law (rs : Nat) (pk sk : Bytes)
    (h : toyPrims.sigKeypair rs = some (pk, sk)) :
    ∀ m, toyPrims.sigVerify m (toyPrims.sigSign m sk) pk = true := by
  simp only [toyPrims] at h ⊢
  obtain ⟨rfl, rfl⟩ : pk = [rs] ∧ sk = [rs] := by
    simpa [Prod.ext_iff] using h.symm
  simp

theorem toy_kem_law (rk : Nat) (pk sk : Bytes)
    (_h : toyPrims.kemKeypair rk = some (pk, sk)) :
    ∀ r ct ss, toyPrims.kemEncapsulate pk r = some (ct, ss) →
      toyPrims.kemDecapsulate sk ct = some ss := by
  intro r ct ss he
  simp only [toyPrims, Option.some.injEq, Prod.mk.injEq] at he ⊢
  obtain ⟨rfl, rfl⟩ := he
  simp

theorem toy_aes_law (k n p c : Bytes)
    (h : toyPrims.aesEncrypt k n p = some c) :
    toyPrims.aesDecrypt k n c = some p := by
  simp only [toyPrims, Option.some.injEq] at h ⊢
  rw [← h, List.reverse_reverse]

/-- Identity A of the scenario runs: generated from coins (1, 2). -/
def ctxA : EncryptionContext := ⟨([1], [1]), ([2], [2])⟩

/-- Identity B of the scenario runs: generated from coins (3, 4). -/
def ctxB : EncryptionContext := ⟨([3], [3]), ([4], [4])⟩

/-- A concrete 12-byte nonce. -/
def nonce12 : Bytes := List.replicate 12 9

/-! ## Base64 codec lemmas -/

theorem codeToSextet_sextetToCode : ∀ n, n < 64 →
    codeToSextet (sextetToCode n) = some n := by decide

theorem bytesToSextets_lt : ∀ (B : Bytes), (∀ x ∈ B, x < 256) →
    ∀ s ∈ bytesToSextets B, s < 64
  | [], _ => by simp [bytesToSextets]
  | [a], h => by
    have ha : a < 256 := h a (by simp)
    intro s hs
    simp only [bytesToSextets, List.mem_cons, List.not_mem_nil, or_false] at hs
    rcases hs with rfl | rfl <;> omega
  | [a, b], h => by
    have ha : a < 256 := h a (by simp)
    have hb : b < 256 := h b (by simp)
    intro s hs
    simp only [bytesToSextets, List.mem_cons, List.not_mem_nil, or_false] at hs
    rcases hs with rfl | rfl | rfl <;> omega
  | a :: b :: c :: rest, h => by
    have ha : a < 256 := h a (by simp)
    have hb : b < 256 := h b (by simp)
    have hc : c < 256 := h c (by simp)
    have ih := bytesToSextets_lt rest (fun x hx => h x (by simp [hx]))
    intro s hs
    simp only [bytesToSextets, List.mem_cons] at hs
    rcases hs with rfl | rfl | rfl | rfl | hs
    · omega
    · omega
    · omega
    · omega
    · exact ih s hs

theorem sextetsToBytes_bytesToSextets : ∀ (B : Bytes), (∀ x ∈ B, x < 256) →
    sextetsToBytes (bytesToSextets B) = some B
  | [], _ => by simp [bytesToSextets, sextetsToBytes]
  | [a], h => by
    have ha : a < 256 := h a (by simp)
    have h1 : a % 4 * 16 % 16 = 0 := by omega
    have h2 : a / 4 * 4 + a % 4 * 16 / 16 = a := by omega
    simp only [bytesToSextets, sextetsToBytes, h1, if_pos, h2, if_true]
  | [a, b], h => by
    have ha : a < 256 := h a (by simp)
    have hb : b < 256 := h b (by simp)
    have h1 : b % 16 * 4 % 4 = 0 := by omega
    have h2 : a / 4 * 4 + (a % 4 * 16 + b / 16) / 16 = a := by omega
    have h3 : (a % 4 * 16 + b / 16) % 16 * 16 + b % 16 * 4 / 4 = b := by omega
    simp only [bytesToSextets, sextetsToBytes, h1, h2, h3, if_true]
  | a :: b :: c :: rest, h => by
    have ha : a < 256 := h a (by simp)
    have hb : b < 256 := h b (by simp)
    have hc : c < 256 := h c (by simp)
    have ih := sextetsToBytes_bytesToSextets rest
      (fun x hx => h x (by simp [hx]))
    have e1 : a / 4 * 4 + (a % 4 * 16 + b / 16) / 16 = a := by omega
    have e2 : (a % 4 * 16 + b / 16) % 16 * 16 + (b % 16 * 4 + c / 64) / 4 = b := by
      omega
    have e3 : (b % 16 * 4 + c / 64) % 4 * 64 + c % 64 = c := by omega
    simp only [bytesToSextets, sextetsToBytes, ih, e1, e2, e3]

theorem decodeCodes_map_sextetToCode (l : List Nat) (hl : ∀ s ∈ l, s < 64) :
    decodeCodes (l.map sextetToCode) = some l := by
  induction l with
  | nil => simp [decodeCodes]
  | cons s rest ih =>
    have hs : s < 64 := hl s (by simp)
    simp only [List.map_cons, decodeCodes, codeToSextet_sextetToCode s hs,
      ih (fun x hx => hl x (by simp [hx])), Option.map_some']

/-! ## Protocol helper lemmas -/

namespace EncryptionContext

theorem generate_ok (P : Prims) (rk rs : Nat) (c : EncryptionContext)
    (h : generate P rk rs = Except.ok c) :
    P.kemKeypair rk = some (c.encryption.1, c.encryption.2) ∧
    P.sigKeypair rs = some (c.signing.1, c.signing.2) := by
  unfold generate at h
  cases hk : P.kemKeypair rk with
  | none => rw [hk] at h; exact absurd h (by simp)
  | some pk =>
    obtain ⟨epk, esk⟩ := pk
    rw [hk] at h
    cases hs : P.sigKeypair rs with
    | none => rw [hs] at h; exact absurd h (by simp)
    | some ps =>
      obtain ⟨spk, ssk⟩ := ps
      rw [hs] at h
      simp only [Except.ok.injEq] at h
      subst h
      exact ⟨rfl, rfl⟩

theorem encrypt_direct_ok (P : Prims) (c : EncryptionContext) (nonce : Bytes)
    (r : Nat) (target data : Bytes) (enc : Bytes × Bytes)
    (h : encrypt_direct P c nonce r target data = Except.ok enc) :
    ∃ opaque_key ss encrypted_block,
      P.kemEncapsulate target r = some (opaque_key, ss) ∧ ss.length = 32 ∧
      P.aesEncrypt ss nonce data = some encrypted_block ∧
      enc = (P.encTriple (opaque_key, nonce, encrypted_block),
        P.sigSign (P.encTriple (opaque_key, nonce, encrypted_block))
          c.signing.2) := by
  unfold encrypt_direct at h
  split at h
  · exact absurd h (by simp)
  · rename_i opaque_key ss hk
    split at h
    · exact absurd h (by simp)
    · rename_i hl
      split at h
      · exact absurd h (by simp)
      · rename_i encrypted_block ha
        simp only [Except.ok.injEq] at h
        exact ⟨opaque_key, ss, encrypted_block, hk, by omega, ha, h.symm⟩

theorem decrypt_direct_of_encrypt (P : Prims) (A B : EncryptionContext)
    (nonce : Bytes) (r : Nat) (p : Bytes) (enc : Bytes × Bytes)
    (hsig : ∀ m, P.sigVerify m (P.sigSign m A.signing.2) A.signing.1 = true)
    (hkem : ∀ ct ss, P.kemEncapsulate B.encryption.1 r = some (ct, ss) →
      P.kemDecapsulate B.encryption.2 ct = some ss)
    (haes : ∀ k n q ct, P.aesEncrypt k n q = some ct →
      P.aesDecrypt k n ct = some q)
    (htri : ∀ t, P.decTriple (P.encTriple t) = some t)
    (he : encrypt_direct P A nonce r B.encryption.1 p = Except.ok enc) :
    decrypt_direct P B enc A.signing.1 = Except.ok p := by
  obtain ⟨ok, ss, eb, hk, hl, ha, henc⟩ :=
    encrypt_direct_ok P A nonce r B.encryption.1 p enc he
  subst henc
  unfold decrypt_direct
  simp only [secret_keys, hsig, if_true, htri, hkem ok ss hk, hl,
    ne_eq, not_true_eq_false, if_false, haes ss nonce p eb ha]

theorem encrypt_targets_ok (P : Prims) (c : EncryptionContext)
    (rnd : Nat → Bytes × Nat) (w : Bytes) :
    ∀ (ts : List Bytes) (i0 : Nat) (results : List (Bytes × (Bytes × Bytes))),
      encrypt_targets P c rnd w ts i0 = Except.ok results →
      results.length = ts.length ∧
      ∀ j t, ts[j]? = some t → ∃ enc,
        encrypt_direct P c (rnd (i0 + j)).1 (rnd (i0 + j)).2 t w =
          Except.ok enc ∧
        results[j]? = some (t, enc) := by
  intro ts
  induction ts with
  | nil =>
    intro i0 results h
    simp only [encrypt_targets, Except.ok.injEq] at h
    subst h
    simp
  | cons t ts ih =>
    intro i0 results h
    unfold encrypt_targets at h
    cases h1 : encrypt_direct P c (rnd i0).1 (rnd i0).2 t w with
    | error e => rw [h1] at h; exact absurd h (by simp)
    | ok enc0 =>
      rw [h1] at h
      cases h2 : encrypt_targets P c rnd w ts (i0 + 1) with
      | error e => rw [h2] at h; exact absurd h (by simp)
      | ok rest =>
        rw [h2] at h
        simp only [Except.ok.injEq] at h
        subst h
        obtain ⟨hlen, hspec⟩ := ih (i0 + 1) rest h2
        refine ⟨by simp [hlen], ?_⟩
        intro j u hu
        cases j with
        | zero =>
          simp only [List.getElem?_cons_zero, Option.some.injEq] at hu
          subst hu
          exact ⟨enc0, by simpa using h1, by simp⟩
        | succ j =>
          simp only [List.getElem?_cons_succ] at hu
          obtain ⟨enc, he, hr⟩ := hspec j u hu
          refine ⟨enc, ?_, by simpa using hr⟩
          have harith : i0 + 1 + j = i0 + (j + 1) := by omega
          rw [← harith]
          exact he

theorem encrypt_group_ok (P : Prims) (c : EncryptionContext) (key : GroupKey)
    (targets : List Bytes) (data nonce : Bytes) (rnd : Nat → Bytes × Nat)
    (results : List (Bytes × (Bytes × Bytes)))
    (h : encrypt_group P c key targets data nonce rnd = Except.ok results) :
    ∃ encrypted_block,
      key.key.bytes.length = 32 ∧
      P.aesEncrypt key.key.bytes nonce data = some encrypted_block ∧
      results.length = targets.length ∧
      ∀ j t, targets[j]? = some t → ∃ enc,
        encrypt_direct P c (rnd j).1 (rnd j).2 t
          (P.encPair (P.encGroupTriple (key.id, nonce, encrypted_block),
            P.sigSign (P.encGroupTriple (key.id, nonce, encrypted_block))
              c.signing.2)) = Except.ok enc ∧
        results[j]? = some (t, enc) := by
  unfold encrypt_group at h
  by_cases hl : key.key.bytes.length = 32
  · rw [if_neg (by simp [hl])] at h
    cases ha : P.aesEncrypt key.key.bytes nonce data with
    | none => rw [ha] at h; exact absurd h (by simp)
    | some encrypted_block =>
      rw [ha] at h
      obtain ⟨hlen, hspec⟩ := encrypt_targets_ok P c rnd _ targets 0 results h
      refine ⟨encrypted_block, hl, rfl, hlen, ?_⟩
      intro j t ht
      obtain ⟨enc, he, hr⟩ := hspec j t ht
      refine ⟨enc, ?_, hr⟩
      simpa [secret_keys, Nat.zero_add] using he
  · rw [if_pos hl] at h
    exact absurd h (by simp)

end EncryptionContext

/-! ## Claim theorems -/

/-- C1: Hybrid direct encryption round-trips.  For every plaintext `p` and
every pair of successfully generated encryption contexts `A` and `B` —
assuming the correctness laws of the external KEM, signature, AEAD and
serializer libraries — calling B's `decrypt_direct` on the result of A's
`encrypt_direct` addressed to B's encapsulation public key, with A's signing
public key supplied as the signer, returns `p`. -/
theorem C1_hybrid_direct_roundtrip (P : Prims) (rkA rsA rkB rsB : Nat)
    (A B : EncryptionContext) (nonce : Bytes) (r : Nat) (p : Bytes)
    (enc : Bytes × Bytes)
    (hA : EncryptionContext.generate P rkA rsA = Except.ok A)
    (hB : EncryptionContext.generate P rkB rsB = Except.ok B)
    (hsig : ∀ rs pk sk, P.sigKeypair rs = some (pk, sk) →
      ∀ m, P.sigVerify m (P.sigSign m sk) pk = true)
    (hkem : ∀ rk pk sk, P.kemKeypair rk = some (pk, sk) →
      ∀ r' ct ss, P.kemEncapsulate pk r' = some (ct, ss) →
        P.kemDecapsulate sk ct = some ss)
    (haes : ∀ k n q ct, P.aesEncrypt k n q = some ct →
      P.aesDecrypt k n ct = some q)
    (htri : ∀ t, P.decTriple (P.encTriple t) = some t)
    (he : EncryptionContext.encrypt_direct P A nonce r B.encryption.1 p =
      Except.ok enc) :
    EncryptionContext.decrypt_direct P B enc A.signing.1 = Except.ok p := by
  obtain ⟨hAk, hAs⟩ := EncryptionContext.generate_ok P rkA rsA A hA
  obtain ⟨hBk, hBs⟩ := EncryptionContext.generate_ok P rkB rsB B hB
  exact EncryptionContext.decrypt_direct_of_encrypt P A B nonce r p enc
    (hsig rsA A.signing.1 A.signing.2 hAs)
    (fun ct ss h => hkem rkB B.encryption.1 B.encryption.2 hBk r ct ss h)
    haes htri he

/-- C1 witness: concrete contexts generated from coins (1,2) and (3,4) in
the concrete primitives; `[10, 20]` round-trips. -/
theorem C1_witness :
    EncryptionContext.decrypt_direct toyPrims ctxB
      ((EncryptionContext.encrypt_direct toyPrims ctxA nonce12 5
        ctxB.encryption.1 [10, 20]).toOption.getD ([], []))
      ctxA.signing.1 = Except.ok [10, 20] :=
  C1_hybrid_direct_roundtrip toyPrims 1 2 3 4 ctxA ctxB nonce12 5 [10, 20] _
    rfl rfl toy_sig_law toy_kem_law toy_aes_law toyDecTriple_enc rfl

/-- C2 counterexample: the claim says the cipher body contains, in order,
the origin encapsulation public key, the origin signing public key, the
nonce, the encapsulated-secret ciphertext, and the symmetric ciphertext.  In
a concrete successful run of `encrypt_direct` (sender `ctxA`, whose
encapsulation public key is `[1]` and signing public key is `[2]`), the
produced cipher body decodes as the three-field record
(kem ciphertext `[3, 5]`, nonce, symmetric ciphertext `[20, 10]`): its first
field is the encapsulated-secret ciphertext, not the origin encapsulation
public key, and no field carries either origin public key. -/
theorem C2_counterexample :
    (match EncryptionContext.encrypt_direct toyPrims ctxA nonce12 5
        ctxB.encryption.1 [10, 20] with
      | Except.ok enc => toyPrims.decTriple enc.1
      | Except.error _ => none) = some ([3, 5], nonce12, [20, 10]) ∧
    ([3, 5] : Bytes) ≠ ctxA.encryption.1 ∧
    ([3, 5] : Bytes) ≠ ctxA.signing.1 ∧
    nonce12 ≠ ctxA.encryption.1 ∧ nonce12 ≠ ctxA.signing.1 ∧
    ([20, 10] : Bytes) ≠ ctxA.encryption.1 ∧
    ([20, 10] : Bytes) ≠ ctxA.signing.1 := by
  exact ⟨rfl, by decide, by decide, by decide, by decide, by decide, by decide⟩

/-- C2 (amended): the single-recipient cipher body produced by
`encrypt_direct` contains, in this order: the encapsulated-secret
ciphertext, the nonce (12 bytes), and the symmetric ciphertext-with-tag.
The sender's public keys are not part of the body. -/
theorem C2_amended_cipher_body_order (P : Prims) (c : EncryptionContext)
    (nonce : Bytes) (r : Nat) (target data : Bytes) (enc : Bytes × Bytes)
    (hn : nonce.length = 12)
    (htri : ∀ t, P.decTriple (P.encTriple t) = some t)
    (he : EncryptionContext.encrypt_direct P c nonce r target data =
      Except.ok enc) :
    P.decTriple enc.1 =
      (P.kemEncapsulate target r).bind (fun pr =>
        (P.aesEncrypt pr.2 nonce data).map (fun eb => (pr.1, nonce, eb))) ∧
    nonce.length = 12 := by
  obtain ⟨ok, ss, eb, hk, _, ha, henc⟩ :=
    EncryptionContext.encrypt_direct_ok P c nonce r target data enc he
  refine ⟨?_, hn⟩
  simp [henc, hk, ha, htri]

/-- C2 amended-claim witness: the concrete run's body decodes to
(kem ciphertext, 12-byte nonce, symmetric ciphertext) in that order. -/
theorem C2_amended_witness :
    toyPrims.decTriple
      ((EncryptionContext.encrypt_direct toyPrims ctxA nonce12 5
        ctxB.encryption.1 [10, 20]).toOption.getD ([], [])).1 =
      (toyPrims.kemEncapsulate ctxB.encryption.1 5).bind (fun pr =>
        (toyPrims.aesEncrypt pr.2 nonce12 [10, 20]).map
          (fun eb => (pr.1, nonce12, eb))) ∧
    nonce12.length = 12 :=
  C2_amended_cipher_body_order toyPrims ctxA nonce12 5 ctxB.encryption.1
    [10, 20] _ (by decide) toyDecTriple_enc rfl

/-- C3 counterexample: the claim says `decrypt_direct` accepts an *optional*
known signer and, when none is supplied, falls back to a signing public key
embedded in the cipher body.  In the code the signer argument is mandatory
and the cipher body embeds no signing key at all: in a concrete run (sender
`ctxA`, signing public key `[2]`) the body decodes to
(kem ciphertext, nonce, symmetric ciphertext) with no field equal to the
sender's signing public key, and decryption with a wrong supplied signer
`[99]` fails with the verification error — no embedded-key fallback rescues
it — while supplying A's signing key succeeds. -/
theorem C3_counterexample :
    (match EncryptionContext.encrypt_direct toyPrims ctxA nonce12 5
        ctxB.encryption.1 [10, 20] with
      | Except.ok enc =>
        some (toyPrims.decTriple enc.1,
          EncryptionContext.decrypt_direct toyPrims ctxB enc [99],
          EncryptionContext.decrypt_direct toyPrims ctxB enc ctxA.signing.1)
      | Except.error _ => none) =
      some (some ([3, 5], nonce12, [20, 10]),
        Except.error Err.OQS, Except.ok [10, 20]) ∧
    ([3, 5] : Bytes) ≠ ctxA.signing.1 ∧ nonce12 ≠ ctxA.signing.1 ∧
    ([20, 10] : Bytes) ≠ ctxA.signing.1 := by
  exact ⟨rfl, by decide, by decide, by decide⟩

/-- C3 (amended): `decrypt_direct` takes a mandatory `signer` parameter and
the signature over the cipher body is verified against exactly the supplied
key; there is no optional signer and no signing key embedded in the cipher
body to fall back to.  If verification against the supplied signer fails,
decryption fails with the verification error; if decryption succeeds, the
supplied signer accepted the signature. -/
theorem C3_amended_signer_mandatory (P : Prims) (c : EncryptionContext)
    (data : Bytes × Bytes) (signer : Bytes) :
    (P.sigVerify data.1 data.2 signer = false →
      EncryptionContext.decrypt_direct P c data signer =
        Except.error Err.OQS) ∧
    (∀ pt, EncryptionContext.decrypt_direct P c data signer = Except.ok pt →
      P.sigVerify data.1 data.2 signer = true) := by
  constructor
  · intro hv
    unfold EncryptionContext.decrypt_direct
    rw [hv]
    simp
  · intro pt h
    by_cases hv : P.sigVerify data.1 data.2 signer = true
    · exact hv
    · rw [Bool.not_eq_true] at hv
      unfold EncryptionContext.decrypt_direct at h
      rw [hv] at h
      simp at h

/-- C3 amended-claim witness: with a signature that the supplied signer
`[3]` rejects, decryption fails with the verification error. -/
theorem C3_amended_witness :
    EncryptionContext.decrypt_direct toyPrims ctxB ([1], [2]) [3] =
      Except.error Err.OQS :=
  (C3_amended_signer_mandatory toyPrims ctxB ([1], [2]) [3]).1 (by decide)

/-- C4: the public API re-exports a `SymmetricKey` component (`lib.rs:5`)
whose definition is missing from `src/`; modelled from the spec (section
4.3), it round-trips: for every plaintext `p` and generated key,
`decrypt(K, encrypt(K, p)) = p`, assuming the AEAD and envelope codec
laws. -/
theorem C4_symmetric_key_roundtrip (P : Prims) (rndByte : Nat → Nat)
    (nonce p env : Bytes)
    (hpair : ∀ t, P.decPair (P.encPair t) = some t)
    (haes : ∀ k n q ct, P.aesEncrypt k n q = some ct →
      P.aesDecrypt k n ct = some q)
    (he : SymmetricKey.encrypt P (SymmetricKey.generate rndByte) nonce p =
      Except.ok env) :
    SymmetricKey.decrypt P (SymmetricKey.generate rndByte) env =
      Except.ok p := by
  have hlen : (SymmetricKey.generate rndByte).key.length = 32 := by
    simp [SymmetricKey.generate]
  unfold SymmetricKey.encrypt at he
  rw [if_neg (by simp [hlen])] at he
  cases ha : P.aesEncrypt (SymmetricKey.generate rndByte).key nonce p with
  | none => rw [ha] at he; exact absurd he (by simp)
  | some ct =>
    rw [ha] at he
    simp only [Except.ok.injEq] at he
    subst he
    unfold SymmetricKey.decrypt
    simp only [hpair, hlen, ne_eq, not_true_eq_false, if_false,
      haes _ _ _ _ ha]

/-- C4 witness: a concrete generated key round-trips `[1, 2, 3]`. -/
theorem C4_witness :
    SymmetricKey.decrypt toyPrims (SymmetricKey.generate (fun i => i))
      ((SymmetricKey.encrypt toyPrims (SymmetricKey.generate (fun i => i))
        nonce12 [1, 2, 3]).toOption.getD []) = Except.ok [1, 2, 3] :=
  C4_symmetric_key_roundtrip toyPrims (fun i => i) nonce12 [1, 2, 3] _
    toyDecPair_enc toy_aes_law rfl

/-- A concrete group key with id 77. -/
def gkey77 : GroupKey := ⟨77, ⟨List.replicate 32 1⟩⟩

/-- A concrete group key with id 88 and the *same* secret bytes as
`gkey77`. -/
def gkey88 : GroupKey := ⟨88, ⟨List.replicate 32 1⟩⟩

/-- The result list of a concrete single-recipient group encryption run
(sender `ctxA`, group key `gkey77`, recipient `ctxB`). -/
def groupRun1 : List (Bytes × (Bytes × Bytes)) :=
  (EncryptionContext.encrypt_group toyPrims ctxA gkey77 [ctxB.encryption.1]
    [10, 20] nonce12 (fun _ => (nonce12, 5))).toOption.getD []

/-- The hybrid package addressed to `ctxB` in `groupRun1`. -/
def groupRun1Enc : Bytes × Bytes := (groupRun1.headD ([], ([], []))).2

/-- The result list of a concrete two-recipient group encryption run. -/
def groupRun2 : List (Bytes × (Bytes × Bytes)) :=
  (EncryptionContext.encrypt_group toyPrims ctxA gkey77
    [ctxB.encryption.1, [6]] [10, 20] nonce12
    (fun _ => (nonce12, 5))).toOption.getD []

/-- C5: for every group-encrypted message, `decrypt_group` fails with the
`GroupKeyMismatch` error (`UserError::InvalidKeyId`) whenever the group key
id decoded from the inner record (the encrypting key `e`'s id) differs from
the supplied key `d`'s id — with no hypothesis relating the two keys'
secret bytes, so in particular even when they are equal — and the reported
error carries (expected `d.id`, received `e.id`); since the result is the
mismatch error rather than an AEAD result, the mismatch is decided before
any symmetric decryption with the supplied key. -/
theorem C5_group_key_mismatch (P : Prims) (A B : EncryptionContext)
    (e d : GroupKey) (targets : List Bytes) (data gnonce : Bytes)
    (rnd : Nat → Bytes × Nat) (results : List (Bytes × (Bytes × Bytes)))
    (i : Nat) (enc : Bytes × Bytes)
    (hsig : ∀ m, P.sigVerify m (P.sigSign m A.signing.2) A.signing.1 = true)
    (hkem : ∀ r ct ss, P.kemEncapsulate B.encryption.1 r = some (ct, ss) →
      P.kemDecapsulate B.encryption.2 ct = some ss)
    (haes : ∀ k n q ct, P.aesEncrypt k n q = some ct →
      P.aesDecrypt k n ct = some q)
    (htri : ∀ t, P.decTriple (P.encTriple t) = some t)
    (hpair : ∀ t, P.decPair (P.encPair t) = some t)
    (hgt : ∀ t, P.decGroupTriple (P.encGroupTriple t) = some t)
    (henc : EncryptionContext.encrypt_group P A e targets data gnonce rnd =
      Except.ok results)
    (hentry : results[i]? = some (B.encryption.1, enc))
    (hid : d.id ≠ e.id) :
    EncryptionContext.decrypt_group P B d enc A.signing.1 =
      Except.error (Err.UserErrorInvalidKeyId d.id e.id) := by
  obtain ⟨eb, hl32, ha, hlen, hspec⟩ :=
    EncryptionContext.encrypt_group_ok P A e targets data gnonce rnd
      results henc
  have hi : i < results.length := by
    rw [List.getElem?_eq_some] at hentry
    exact hentry.1
  have hit : i < targets.length := by rw [← hlen]; exact hi
  obtain ⟨enc', he', hr'⟩ :=
    hspec i targets[i] (List.getElem?_eq_getElem hit)
  rw [hentry] at hr'
  simp only [Option.some.injEq, Prod.mk.injEq] at hr'
  obtain ⟨hteq1, rfl⟩ := hr'
  rw [← hteq1] at he'
  have hdd := EncryptionContext.decrypt_direct_of_encrypt P A B
    (rnd i).1 (rnd i).2 _ enc hsig (hkem (rnd i).2) haes htri he'
  unfold EncryptionContext.decrypt_group
  rw [hdd]
  simp only [hpair, hsig, if_true, hgt]
  rw [if_pos (fun hcontra => hid hcontra.symm)]

/-- C5 witness: `gkey88` has the same secret bytes as `gkey77` but a
different id; decrypting `groupRun1`'s package for `ctxB` against `gkey88`
fails with the mismatch error (expected 88, received 77). -/
theorem C5_witness :
    gkey88.key = gkey77.key ∧ gkey88.id ≠ gkey77.id ∧
    EncryptionContext.decrypt_group toyPrims ctxB gkey88 groupRun1Enc
      ctxA.signing.1 = Except.error (Err.UserErrorInvalidKeyId 88 77) := by
  refine ⟨by decide, by decide, ?_⟩
  exact C5_group_key_mismatch toyPrims ctxA ctxB gkey77 gkey88
    [ctxB.encryption.1] [10, 20] nonce12 (fun _ => (nonce12, 5))
    groupRun1 0 groupRun1Enc
    (toy_sig_law 2 ctxA.signing.1 ctxA.signing.2 rfl)
    (fun r => toy_kem_law 3 ctxB.encryption.1 ctxB.encryption.2 rfl r)
    toy_aes_law toyDecTriple_enc toyDecPair_enc toyDecGroupTriple_enc
    rfl (by decide) (by decide)

/-- C6: in `encrypt_group`, the symmetric encryption of the plaintext
happens once (one `encrypted_block`) and the inner record is signed once;
the same signed, wrapped package is the plaintext of every per-recipient
`encrypt_direct` call, and the j-th output pairs the j-th recipient key with
the hybrid result addressed to that same key. -/
theorem C6_group_single_package (P : Prims) (c : EncryptionContext)
    (key : GroupKey) (targets : List Bytes) (data nonce : Bytes)
    (rnd : Nat → Bytes × Nat) (results : List (Bytes × (Bytes × Bytes)))
    (h : EncryptionContext.encrypt_group P c key targets data nonce rnd =
      Except.ok results) :
    ∃ encrypted_block,
      P.aesEncrypt key.key.bytes nonce data = some encrypted_block ∧
      results.length = targets.length ∧
      ∀ j t, targets[j]? = some t → ∃ enc,
        EncryptionContext.encrypt_direct P c (rnd j).1 (rnd j).2 t
          (P.encPair (P.encGroupTriple (key.id, nonce, encrypted_block),
            P.sigSign (P.encGroupTriple (key.id, nonce, encrypted_block))
              c.signing.2)) = Except.ok enc ∧
        results[j]? = some (t, enc) := by
  obtain ⟨eb, _, ha, hlen, hspec⟩ :=
    EncryptionContext.encrypt_group_ok P c key targets data nonce rnd
      results h
  exact ⟨eb, ha, hlen, hspec⟩

/-- C6 witness: the concrete two-recipient run produces one entry per
recipient, paired with that recipient's key, and both entries carry the
hybrid encryption of the same wrapped package. -/
theorem C6_witness :
    groupRun2.length = 2 ∧
    groupRun2[0]?.map Prod.fst = some ctxB.encryption.1 ∧
    groupRun2[1]?.map Prod.fst = some [6] := by
  obtain ⟨eb, ha, hlen, hspec⟩ :=
    C6_group_single_package toyPrims ctxA gkey77 [ctxB.encryption.1, [6]]
      [10, 20] nonce12 (fun _ => (nonce12, 5)) groupRun2 rfl
  refine ⟨hlen, ?_, ?_⟩
  · obtain ⟨enc, -, hr⟩ := hspec 0 ctxB.encryption.1 (by decide)
    rw [hr]
    rfl
  · obtain ⟨enc, -, hr⟩ := hspec 1 [6] (by decide)
    rw [hr]
    rfl

/-- C7: base64 text codec round-trip: for every byte sequence `B`
(entries are 8-bit values), decoding the text produced by encoding `B`
returns exactly `B`.  Encoding itself is the total function
`Base64.fromBytes` (the Rust `From` impl returns `Self`, not `Result`):
it cannot fail. -/
theorem C7_base64_roundtrip (B : Bytes) (hB : ∀ x ∈ B, x < 256) :
    Base64.tryInto (Base64.fromBytes B) = Except.ok B := by
  unfold Base64.fromBytes Base64.tryInto
  simp only [decodeCodes_map_sextetToCode _ (bytesToSextets_lt B hB),
    sextetsToBytes_bytesToSextets B hB]

/-- C7 witness: `[0, 255, 77, 1, 128]` survives the round-trip. -/
theorem C7_witness :
    (∀ x ∈ ([0, 255, 77, 1, 128] : Bytes), x < 256) ∧
    Base64.tryInto (Base64.fromBytes [0, 255, 77, 1, 128]) =
      Except.ok [0, 255, 77, 1, 128] :=
  ⟨by decide, C7_base64_roundtrip [0, 255, 77, 1, 128] (by decide)⟩

/-- C8: constructing a `SharedSecret` from an untrusted byte vector fails
with `BadLength` for every input whose length is not 32, and succeeds for
every 32-byte input, returning a secret holding those bytes. -/
theorem C8_shared_secret_length (v : Bytes) :
    (v.length ≠ 32 →
      SharedSecret.try_from v = Except.error (Err.BadLength v.length 32)) ∧
    (v.length = 32 → SharedSecret.try_from v = Except.ok ⟨v⟩) := by
  constructor
  · intro h
    unfold SharedSecret.try_from
    rw [if_pos h]
  · intro h
    unfold SharedSecret.try_from
    rw [if_neg (by simp [h])]

/-- C8 witness: a 31-byte and a 33-byte input fail with `BadLength`; a
32-byte input succeeds and holds its bytes. -/
theorem C8_witness :
    SharedSecret.try_from (List.replicate 31 0) =
      Except.error (Err.BadLength 31 32) ∧
    SharedSecret.try_from (List.replicate 33 0) =
      Except.error (Err.BadLength 33 32) ∧
    SharedSecret.try_from (List.replicate 32 7) =
      Except.ok ⟨List.replicate 32 7⟩ := by
  refine ⟨?_, ?_, ?_⟩
  · simpa using (C8_shared_secret_length (List.replicate 31 0)).1 (by simp)
  · simpa using (C8_shared_secret_length (List.replicate 33 0)).1 (by simp)
  · exact (C8_shared_secret_length (List.replicate 32 7)).2 (by simp)

/-- C9: for an n-byte input with n ≠ 32, the `SharedSecret` constructor
returns `BadLength` carrying n in its first position and 32 in its second,
while the `#[error(...)]` format of `Error::BadLength` renders the first
position into the `expected` slot and the second into the `got` slot — so
the rendered error reads "expected n, got 32". -/
theorem C9_bad_length_argument_order (v : Bytes) (h : v.length ≠ 32) :
    SharedSecret.try_from v = Except.error (Err.BadLength v.length 32) ∧
    (badLengthMessage v.length 32).data =
      "Invalid bytestring length: expected ".data ++
        (toString v.length).data ++ ", got 32".data := by
  constructor
  · unfold SharedSecret.try_from
    rw [if_pos h]
  · have htail : ((", got " : String).data ++
        (toString (32 : Nat)).data : List Char) = (", got 32" : String).data := by
      decide
    simp only [badLengthMessage, String.data_append, List.append_assoc, htail]

/-- C9 witness: a 31-byte input yields `BadLength 31 32`, rendered as
"expected 31, got 32". -/
theorem C9_witness :
    SharedSecret.try_from (List.replicate 31 0) =
      Except.error (Err.BadLength 31 32) ∧
    badLengthMessage 31 32 =
      "Invalid bytestring length: expected 31, got 32" := by
  have h := C9_bad_length_argument_order (List.replicate 31 0) (by simp)
  refine ⟨by simpa using h.1, ?_⟩
  rfl

/-- C10: `FromStr` stores an arbitrary string in a `Base64` without any
validation and never fails (its error type is `Infallible`); on an instance
whose contained string is not decodable URL-safe unpadded base64, `value()`
panics via `expect` (the panic is embedded as `none`) rather than returning
an error, and only `try_value` surfaces the failure as a result. -/
theorem C10_from_str_unvalidated_value_panics (s : List Nat)
    (hbad : ∀ bs, Base64.tryInto ⟨s⟩ ≠ Except.ok bs) :
    Base64.from_str s = Except.ok ⟨s⟩ ∧
    Base64.value ⟨s⟩ = none ∧
    Base64.try_value ⟨s⟩ = Except.error Err.Base64Decoding := by
  refine ⟨rfl, ?_, ?_⟩ <;>
  · cases hd : decodeCodes s with
    | none =>
      simp [Base64.value, Base64.try_value, Base64.tryInto, hd,
        Except.toOption]
    | some sx =>
      cases hs2 : sextetsToBytes sx with
      | none =>
        simp [Base64.value, Base64.try_value, Base64.tryInto, hd, hs2,
          Except.toOption]
      | some bs =>
        exact absurd (by simp [Base64.tryInto, hd, hs2]) (hbad bs)

/-- C10 witness: `"!"` (character code 33) is stored by `from_str` without
complaint; `value()` on it panics (`none`) and `try_value` returns the
decoding error. -/
theorem C10_witness :
    Base64.from_str [33] = Except.ok ⟨[33]⟩ ∧
    Base64.value ⟨[33]⟩ = none ∧
    Base64.try_value ⟨[33]⟩ = Except.error Err.Base64Decoding := by
  apply C10_from_str_unvalidated_value_panics
  intro bs hcontra
  have hval : Base64.tryInto ⟨[33]⟩ = Except.error Err.Base64Decoding := rfl
  rw [hval] at hcontra
  exact absurd hcontra (by simp)
